import Mathlib

/-!
# Verification of the Ghostfolio portfolio-analysis agent core

Shallow embedding of the agent orchestrator, portfolio tools, response
verifier, SSE stream proxy and WebSocket gateway of the repository, with
theorems settling the behavioural claims about them.

Modelling conventions:
* Big.js exact-decimal amounts are embedded as rationals (`ℚ`).
* `Math.round` on a non-negative amount agrees with Mathlib's `round`
  (round half toward positive infinity).
* JavaScript `Map` objects are embedded as insertion-ordered association
  lists (`MapList`): `set` overwrites in place or appends, iteration order
  is insertion order.
* Dates (`new Date().toISOString().split('T')[0]`) are threaded as opaque
  string parameters.
-/

namespace Ghostfolio

/-- `Math.round(x * 100) / 100`: round to two decimal places, half away
from zero toward positive infinity, as done in the TypeScript tools. -/
def round2 (x : ℚ) : ℚ := (round (x * 100) : ℚ) / 100

/-- Insertion-ordered string-keyed map, the embedding of a JavaScript
`Map<string, α>`. -/
abbrev MapList (α : Type) := List (String × α)

/-- `Map.get`: first (and, for maps built by `mset`, only) binding of a key. -/
def mget {α : Type} : MapList α → String → Option α
  | [], _ => none
  | (k', v) :: rest, k => if k' = k then some v else mget rest k

/-- `Map.set`: overwrite in place if the key is present, else append
(JavaScript `Map` insertion-order semantics). -/
def mset {α : Type} : MapList α → String → α → MapList α
  | [], k, v => [(k, v)]
  | (k', v') :: rest, k, v =>
      if k' = k then (k, v) :: rest else (k', v') :: mset rest k v

/-- Keys of a map, in iteration order. -/
def mkeys {α : Type} (m : MapList α) : List String := m.map Prod.fst

/-- Values of a map, in iteration order (`Map.values()`). -/
def mvalues {α : Type} (m : MapList α) : List α := m.map Prod.snd

/-! ## Data model (`agent.types.ts`) -/

/-- A currency-tagged amount. -/
structure Money where
  currency : String
  amount : ℚ
  deriving DecidableEq, Repr

/-- `'market' | 'cost_basis'`. -/
inductive ValuationMethod where
  | market
  | cost_basis
  deriving DecidableEq, Repr

/-- One `{key, value, percent}` allocation entry. -/
structure AllocationRow where
  key : String
  value : Money
  percent : ℚ
  deriving DecidableEq, Repr

/-- A per-symbol holding row of a snapshot. -/
structure HoldingRow where
  symbol : String
  name : Option String
  quantity : ℚ
  costBasis : Option Money
  price : Option Money
  value : Option Money
  assetClass : Option String
  deriving DecidableEq, Repr

/-- The fields of `PortfolioPosition` consumed by the agent tools. -/
structure PortfolioPosition where
  symbol : String
  name : Option String
  quantity : ℚ
  currency : String
  marketPrice : Option ℚ
  investment : Option ℚ
  valueInBaseCurrency : Option ℚ
  assetClass : Option String
  deriving DecidableEq, Repr

/-- Result shape of `getPortfolioSnapshot`. The `timeframe` start is the
empty string in the source; only the end date is kept. -/
structure PortfolioSnapshotResult where
  accountId : String
  timeframeEnd : String
  valuationMethod : ValuationMethod
  asOf : Option String
  totalValue : Money
  allocationBySymbol : List AllocationRow
  allocationByAssetClass : List AllocationRow
  holdings : List HoldingRow
  isPriceDataMissing : Bool
  deriving DecidableEq, Repr

/-! ## `GetPortfolioSnapshotTool.mapToSnapshot` -/

/-- JavaScript `o === 0 || o == null` for a nullable number. -/
def nullOrZero (o : Option ℚ) : Bool :=
  match o with
  | none => true
  | some x => x == 0

/-- The retention filter
`pos.quantity > 0 || (pos.valueInBaseCurrency ?? 0) > 0`. -/
def positionRetained (p : PortfolioPosition) : Bool :=
  decide (0 < p.quantity) || decide (0 < p.valueInBaseCurrency.getD 0)

/-- `hasMissingPrice` for one position: null/zero market price or
null/zero value in base currency. -/
def positionMissingPrice (p : PortfolioPosition) : Bool :=
  nullOrZero p.marketPrice || nullOrZero p.valueInBaseCurrency

/-- JavaScript truthiness conversion `x ? {currency, amount: x} : null`:
`0` and `null` both yield `null`. -/
def moneyOfTruthy (currency : String) (o : Option ℚ) : Option Money :=
  match o with
  | none => none
  | some x => if x = 0 then none else some ⟨currency, x⟩

/-- The holding row built for one retained position. -/
def toHoldingRow (baseCurrency : String) (p : PortfolioPosition) : HoldingRow :=
  { symbol := p.symbol
    name := p.name
    quantity := p.quantity
    costBasis := moneyOfTruthy baseCurrency p.investment
    price := moneyOfTruthy p.currency p.marketPrice
    value := moneyOfTruthy baseCurrency p.valueInBaseCurrency
    assetClass := p.assetClass }

/-- `h.value?.amount ?? h.costBasis?.amount ?? 0`: market value, else cost
basis, else zero. -/
def fallbackAmount (h : HoldingRow) : ℚ :=
  match h.value with
  | some m => m.amount
  | none =>
    match h.costBasis with
    | some m => m.amount
    | none => 0

/-- The positions surviving the retention filter. -/
def retainedPositions (positions : List PortfolioPosition) :
    List PortfolioPosition :=
  positions.filter positionRetained

/-- Total snapshot value: sum of each holding's value-or-cost-basis. -/
def snapshotTotal (holdings : List HoldingRow) : ℚ :=
  (holdings.map fallbackAmount).sum

/-- The raw (unrounded) percent of one holding. -/
def rawPercent (total : ℚ) (h : HoldingRow) : ℚ :=
  if 0 < total then fallbackAmount h / total * 100 else 0

/-- One `allocationBySymbol` row. -/
def allocationRowOf (baseCurrency : String) (total : ℚ) (h : HoldingRow) :
    AllocationRow :=
  { key := h.symbol
    value := { currency := baseCurrency, amount := fallbackAmount h }
    percent := round2 (rawPercent total h) }

/-- The asset-class accumulation map (`assetClassMap`), in first-occurrence
order. -/
def assetClassMap (holdings : List HoldingRow) : MapList ℚ :=
  holdings.foldl
    (fun m h =>
      let cls := h.assetClass.getD "UNKNOWN"
      mset m cls ((mget m cls).getD 0 + fallbackAmount h))
    []

/-- `GetPortfolioSnapshotTool.mapToSnapshot`, with the current date passed
in as `now`. -/
def mapToSnapshot (positions : List PortfolioPosition)
    (baseCurrency now : String) : PortfolioSnapshotResult :=
  let holdings := (retainedPositions positions).map (toHoldingRow baseCurrency)
  let priceMissing := (retainedPositions positions).any positionMissingPrice
  let total := snapshotTotal holdings
  let allocationBySymbol := holdings.map (allocationRowOf baseCurrency total)
  let allocationByAssetClass :=
    (assetClassMap holdings).map fun kv =>
      { key := kv.1
        value := { currency := baseCurrency, amount := kv.2 }
        percent := if 0 < total then round2 (kv.2 / total * 100) else 0 }
  let valuationMethod :=
    if priceMissing then ValuationMethod.cost_basis else ValuationMethod.market
  { accountId := "default"
    timeframeEnd := now
    valuationMethod := valuationMethod
    asOf := if valuationMethod = ValuationMethod.market then some now else none
    totalValue := { currency := baseCurrency, amount := total }
    allocationBySymbol := allocationBySymbol
    allocationByAssetClass := allocationByAssetClass
    holdings := holdings
    isPriceDataMissing := priceMissing }

/-! ## Response verifier (`agent.verifier.ts`) -/

/-- Case-insensitive substring containment, the embedding of
`answer.toLowerCase().includes(pat)` (patterns are lowercase literals). -/
def containsLower (s pat : String) : Bool :=
  decide (pat.toList <:+: s.toList.map Char.toLower)

/-- The `FORBIDDEN_ADVICE_PATTERNS` regexes, expanded into the equivalent
set of lowercase literal substrings (each regex is a literal with plain
alternation, so it matches iff one of these strings occurs, matching
case-insensitively; `returns?` etc. match iff the stem occurs). -/
def advicePatterns : List String :=
  [ "you should buy", "you should sell", "you should invest in",
    "you should divest from",
    "i recommend buying", "i recommend selling", "i recommend investing",
    "i recommend purchasing",
    "you must buy", "you must sell", "you must invest",
    "guaranteed return", "guaranteed profit", "guaranteed gain",
    "i advise buy", "i advise sell", "i advise purchase",
    "i advise you buy", "i advise you sell", "i advise you purchase",
    "i suggest buy", "i suggest sell", "i suggest purchase",
    "i suggest you buy", "i suggest you sell", "i suggest you purchase",
    "allocate exactly" ]

/-- Whether the answer matches any advice-boundary pattern. -/
def adviceBoundaryMatches (answer : String) : Bool :=
  advicePatterns.any (containsLower answer)

/-- The `VALUATION_KEYWORDS` list (lowercased). -/
def valuationKeywords : List String :=
  [ "cost basis", "cost-basis", "costbasis",
    "price data isn't available", "price data is not available",
    "market price data is missing", "based on cost" ]

/-- Result of one verifier check. -/
structure VerificationResult where
  warnings : List String
  confidenceAdjustment : ℚ
  deriving Repr

/-- The warning emitted by the advice-boundary check. -/
def adviceWarningText : String :=
  "Response may contain financial advice language. The agent should provide educational analysis only, not specific buy/sell recommendations."

/-- Check 1: scan for forbidden advisory language; the loop `break`s on
the first match, so at most one warning and a single 0.2 penalty. -/
def checkAdviceBoundary (answer : String) : VerificationResult :=
  if adviceBoundaryMatches answer then
    { warnings := [adviceWarningText], confidenceAdjustment := 0.2 }
  else
    { warnings := [], confidenceAdjustment := 0 }

/-- `Big.toFixed(2)` on an exact amount (round half away from zero agrees
with round-half-up here for the non-negative sums involved). -/
def qToFixed2 (x : ℚ) : String :=
  let n := round (x * 100)
  let a := n.natAbs
  (if n < 0 then "-" else "") ++ toString (a / 100) ++ "." ++
    (if a % 100 < 10 then "0" else "") ++ toString (a % 100)

/-- Check 2: allocation percentages should sum to ≈100% (tolerance 1.0). -/
def checkAllocationSum (allocations : List AllocationRow) :
    VerificationResult :=
  if allocations.isEmpty then
    { warnings := [], confidenceAdjustment := 0 }
  else
    let sum := (allocations.map (·.percent)).sum
    let diff := |sum - 100|
    if 1 < diff then
      { warnings :=
          ["Allocation percentages sum to " ++ qToFixed2 sum ++
            "%, which deviates from 100% by " ++ qToFixed2 diff ++
            "%. This may indicate a calculation error."]
        confidenceAdjustment := 0.1 }
    else
      { warnings := [], confidenceAdjustment := 0 }

/-- The warning emitted by the valuation-label check. -/
def valuationWarningText : String :=
  "Price data is missing for some holdings, but the response does not mention that values are based on cost basis. Users should be informed when market prices are unavailable."

/-- Check 3: when price data is missing, the answer must mention cost
basis (case-insensitive keyword containment). -/
def checkValuationLabel (answer : String) : VerificationResult :=
  if valuationKeywords.any (containsLower answer) then
    { warnings := [], confidenceAdjustment := 0 }
  else
    { warnings := [valuationWarningText], confidenceAdjustment := 0.1 }

/-- The values a tool executor can cache in the per-turn results map. The
orchestrator and verifier only ever read fields of the value stored under
`"getPortfolioSnapshot"` (a snapshot). Other tool outputs are opaque to
them (field access on them yields `undefined`, embedded as the defaults
taken on `opaqueResult`). -/
inductive ToolResultVal where
  | snapshot (s : PortfolioSnapshotResult)
  | opaqueResult (tag : String)
  deriving DecidableEq, Repr

/-- The cast `toolResults.get('getPortfolioSnapshot') as
PortfolioSnapshotResult | undefined`, with undefined-field semantics for
non-snapshot values. -/
def getSnapshotResult (toolResults : MapList ToolResultVal) :
    Option PortfolioSnapshotResult :=
  match mget toolResults "getPortfolioSnapshot" with
  | some (ToolResultVal.snapshot s) => some s
  | _ => none

/-- `verifyAgentResponse`: the three checks, warnings appended and
penalties accumulated in order. -/
def verifyAgentResponse (answer : String)
    (toolResults : MapList ToolResultVal) : VerificationResult :=
  let advice := checkAdviceBoundary answer
  let snapshot? := getSnapshotResult toolResults
  let alloc :=
    match snapshot? with
    | some s => checkAllocationSum s.allocationBySymbol
    | none => { warnings := [], confidenceAdjustment := 0 }
  let valuation :=
    match snapshot? with
    | some s =>
      if s.isPriceDataMissing then checkValuationLabel answer
      else { warnings := [], confidenceAdjustment := 0 }
    | none => { warnings := [], confidenceAdjustment := 0 }
  { warnings := advice.warnings ++ alloc.warnings ++ valuation.warnings
    confidenceAdjustment :=
      advice.confidenceAdjustment + alloc.confidenceAdjustment +
        valuation.confidenceAdjustment }

/-- `computeConfidence`: the fixed decision table, in source order. -/
def computeConfidence (hasErrors isPriceDataMissing : Bool)
    (toolsSucceeded toolsFailed : Nat) (hasHoldings : Bool) : ℚ :=
  if 0 < toolsFailed ∧ toolsSucceeded = 0 then 0.1
  else if hasHoldings = false then 0.4
  else if 0 < toolsFailed then 0.4
  else if isPriceDataMissing || hasErrors then 0.7
  else 1

/-! ## Agent orchestrator (`agent.service.ts`)

The LLM provider and the tool executors are external collaborators: the
two LLM responses of a turn and the behaviour of each executor for this
turn are inputs of the model (`ChatEnv`). Wall-clock latency (`ms` on a
trace row) is not embedded. -/

/-- Opaque JSON payload of a tool invocation. -/
abbrev ToolInput := String

/-- Outcome of running a tool executor: a result, or a thrown error whose
message is extracted by the orchestrator. -/
inductive ExecOutcome where
  | ok (result : ToolResultVal)
  | throws (msg : String)
  deriving Repr

/-- A registered tool: enabled flag plus the executor's behaviour for
this turn. -/
structure RegisteredToolM where
  enabled : Bool
  run : ToolInput → ExecOutcome

/-- The registry's name → tool map. -/
abbrev RegistryM := MapList RegisteredToolM

/-- `ToolRegistry.getExecutor`: present and enabled, else `undefined`. -/
def getExecutor (reg : RegistryM) (name : String) :
    Option (ToolInput → ExecOutcome) :=
  match mget reg name with
  | none => none
  | some t => if t.enabled = false then none else some t.run

/-- One `tool_use` block of LLM call #1. -/
structure ToolUseBlock where
  id : String
  name : String
  input : ToolInput

/-- One tool-trace row (elapsed-time field not embedded). -/
structure ToolTraceRow where
  tool : String
  ok : Bool
  error : Option String
  deriving DecidableEq, Repr

/-- Content of a `tool_result` block (`JSON.stringify` embedded
structurally). -/
inductive BlockContent where
  | json (v : ToolResultVal)
  | errJson (msg : String)
  deriving DecidableEq, Repr

/-- One `tool_result` block sent back to the LLM on call #2. -/
structure ToolResultBlock where
  toolUseId : String
  content : BlockContent
  isError : Bool
  deriving DecidableEq, Repr

/-- Mutable per-turn state of the tool-execution loop. `invocations`
records, in order, the names of tools whose executor was actually run
(the observation that an unknown/disabled tool invokes no executor). -/
structure ToolLoopState where
  toolTrace : List ToolTraceRow
  toolResults : MapList ToolResultVal
  toolsSucceeded : Nat
  toolsFailed : Nat
  toolResultBlocks : List ToolResultBlock
  invocations : List String

/-- The empty loop state at the start of a turn. -/
def initLoopState : ToolLoopState :=
  ⟨[], [], 0, 0, [], []⟩

/-- One iteration of the `for (const toolUse of toolUseBlocks)` loop. -/
def execStep (reg : RegistryM) (st : ToolLoopState) (b : ToolUseBlock) :
    ToolLoopState :=
  match getExecutor reg b.name with
  | none =>
    { st with
      toolsFailed := st.toolsFailed + 1
      toolTrace := st.toolTrace ++
        [⟨b.name, false, some ("Unknown or disabled tool: " ++ b.name)⟩]
      toolResultBlocks := st.toolResultBlocks ++
        [⟨b.id, .errJson ("Unknown or disabled tool: " ++ b.name), true⟩] }
  | some run =>
    match run b.input with
    | .ok v =>
      { st with
        toolResults := mset st.toolResults b.name v
        toolsSucceeded := st.toolsSucceeded + 1
        toolTrace := st.toolTrace ++ [⟨b.name, true, none⟩]
        toolResultBlocks := st.toolResultBlocks ++ [⟨b.id, .json v, false⟩]
        invocations := st.invocations ++ [b.name] }
    | .throws msg =>
      { st with
        toolsFailed := st.toolsFailed + 1
        toolTrace := st.toolTrace ++ [⟨b.name, false, some msg⟩]
        toolResultBlocks := st.toolResultBlocks ++
          [⟨b.id, .errJson ("Tool execution failed: " ++ msg), true⟩]
        invocations := st.invocations ++ [b.name] }

/-- The whole tool-execution loop over LLM call #1's `tool_use` blocks,
in the LLM-requested order. -/
def execToolCalls (reg : RegistryM) (blocks : List ToolUseBlock) :
    ToolLoopState :=
  blocks.foldl (execStep reg) initLoopState

/-- The trace row produced for one request (rows depend only on the
registry and the request, never on earlier requests). -/
def traceRow (reg : RegistryM) (b : ToolUseBlock) : ToolTraceRow :=
  match getExecutor reg b.name with
  | none => ⟨b.name, false, some ("Unknown or disabled tool: " ++ b.name)⟩
  | some run =>
    match run b.input with
    | .ok _ => ⟨b.name, true, none⟩
    | .throws msg => ⟨b.name, false, some msg⟩

/-- `extractText`: text blocks joined with `'\n'`. -/
def extractText (blocks : List String) : String :=
  String.intercalate "\n" blocks

/-- The `data` field of an agent chat response. -/
structure AgentChatData where
  valuationMethod : ValuationMethod
  asOf : Option String
  totalValue : Option Money
  allocationBySymbol : Option (List AllocationRow)
  allocationByAssetClass : Option (List AllocationRow)
  deriving Repr

/-- The full agent chat response. -/
structure AgentChatResponse where
  answer : String
  data : AgentChatData
  toolTrace : List ToolTraceRow
  confidence : ℚ
  warnings : List String
  deriving Repr

/-- `buildErrorResponse`. -/
def buildErrorResponse (message : String) (toolTrace : List ToolTraceRow) :
    AgentChatResponse :=
  { answer := message
    data := ⟨.market, none, none, none, none⟩
    toolTrace := toolTrace
    confidence := 0.1
    warnings := [] }

/-- The environment of one chat turn: configuration, the registry with
this turn's executor behaviours, and the two LLM responses. -/
structure ChatEnv where
  apiKeyConfigured : Bool
  reg : RegistryM
  call1Text : List String
  call1ToolUses : List ToolUseBlock
  call2Text : List String

/-- Baseline confidence on the direct (no tool calls) path. -/
def directBaseConfidence : ℚ := computeConfidence false false 0 0 true

/-- Loop state after executing this turn's requested tools. -/
def toolPathState (env : ChatEnv) : ToolLoopState :=
  execToolCalls env.reg env.call1ToolUses

/-- The final answer text on the tool-executing path. -/
def toolPathAnswer (env : ChatEnv) : String := extractText env.call2Text

/-- The base confidence on the tool-executing path, before verifier
penalties. -/
def toolPathBase (env : ChatEnv) : ℚ :=
  let st := toolPathState env
  let snapshot? := getSnapshotResult st.toolResults
  computeConfidence
    (if (mget st.toolResults "getPortfolioSnapshot").isSome then false
     else decide (0 < st.toolsFailed))
    ((snapshot?.map (·.isPriceDataMissing)).getD false)
    st.toolsSucceeded st.toolsFailed
    (decide (0 < (snapshot?.map (·.holdings.length)).getD 0))

/-- `AgentService.chat` for one turn in which the LLM provider itself does
not fail (provider failures take the catch-all branch, which returns
`buildErrorResponse` and is covered separately by its fixed shape). -/
def chat (env : ChatEnv) : AgentChatResponse :=
  if env.apiKeyConfigured = false then
    buildErrorResponse
      "The portfolio analysis agent is not currently configured. Please set the ANTHROPIC_API_KEY environment variable."
      []
  else if env.call1ToolUses.isEmpty then
    let answer := extractText env.call1Text
    let verification := verifyAgentResponse answer []
    { answer := answer
      data := ⟨.market, none, none, none, none⟩
      toolTrace := []
      confidence := directBaseConfidence
      warnings := verification.warnings }
  else
    let st := toolPathState env
    let answer := toolPathAnswer env
    let verification := verifyAgentResponse answer st.toolResults
    let snapshot? := getSnapshotResult st.toolResults
    { answer := answer
      data :=
        ⟨(snapshot?.map (·.valuationMethod)).getD .market,
         snapshot?.bind (·.asOf),
         snapshot?.map (·.totalValue),
         snapshot?.map (·.allocationBySymbol),
         snapshot?.map (·.allocationByAssetClass)⟩
      toolTrace := st.toolTrace
      confidence := max 0 (toolPathBase env - verification.confidenceAdjustment)
      warnings := verification.warnings }

/-! ## `SimulateAllocationChangeTool` -/

/-- `'buy' | 'sell'`. -/
inductive ChangeType where
  | buy
  | sell
  deriving DecidableEq, Repr

/-- One hypothetical `{type, symbol, amount}` change. -/
structure AllocationChange where
  ctype : ChangeType
  symbol : String
  amountCurrency : String
  amount : ℚ
  deriving DecidableEq, Repr

/-- The note strings pushed by the simulation, embedded structurally
(each constructor is one template with its interpolated values). -/
inductive SimNote where
  | buyNote (currency : String) (amount : ℚ) (symbol : String)
  | oversellNote (currency : String) (amount : ℚ) (symbol : String)
      (currentValue : ℚ)
  deriving DecidableEq, Repr

/-- Result shape of `simulateAllocationChange`. -/
structure SimulateAllocationResult where
  accountId : String
  timeframeEnd : String
  valuationMethod : ValuationMethod
  asOf : Option String
  originalTotalValue : Money
  newTotalValue : Money
  newAllocationBySymbol : List AllocationRow
  notes : List SimNote
  deriving Repr

/-- `pos.valueInBaseCurrency ?? pos.investment ?? 0` (nullish
coalescing: a present zero is kept). -/
def simPositionValue (p : PortfolioPosition) : ℚ :=
  match p.valueInBaseCurrency with
  | some v => v
  | none => p.investment.getD 0

/-- The symbol → current-value map built from the retained positions. -/
def buildValueMap (positions : List PortfolioPosition) : MapList ℚ :=
  positions.foldl
    (fun m p =>
      if positionRetained p then mset m p.symbol (simPositionValue p) else m)
    []

/-- Mutable state of the change-application loop. -/
structure SimState where
  valueMap : MapList ℚ
  newTotal : ℚ
  notes : List SimNote
  deriving Repr

/-- One iteration of the `for (const change of changes)` loop. An
oversell (requested amount strictly above the tracked value) clamps the
symbol to 0, reduces the total by the pre-clamp current value and pushes
a warning note. -/
def applyChange (st : SimState) (c : AllocationChange) : SimState :=
  let current := (mget st.valueMap c.symbol).getD 0
  match c.ctype with
  | .buy =>
    { valueMap := mset st.valueMap c.symbol (current + c.amount)
      newTotal := st.newTotal + c.amount
      notes := st.notes ++ [.buyNote c.amountCurrency c.amount c.symbol] }
  | .sell =>
    if current - c.amount < 0 then
      { valueMap := mset st.valueMap c.symbol 0
        newTotal := st.newTotal - current
        notes := st.notes ++
          [.oversellNote c.amountCurrency c.amount c.symbol current] }
    else
      { valueMap := mset st.valueMap c.symbol (current - c.amount)
        newTotal := st.newTotal - c.amount
        notes := st.notes }

/-- Final loop state of the simulation. -/
def simFinalState (positions : List PortfolioPosition)
    (changes : List AllocationChange) : SimState :=
  changes.foldl applyChange
    ⟨buildValueMap positions, (mvalues (buildValueMap positions)).sum, []⟩

/-- `SimulateAllocationChangeTool.execute` (after the provider returned
`positions`), with the current date passed as `now`. The descending sort
by percent is JavaScript's stable `Array.prototype.sort`. -/
def simulateExecute (positions : List PortfolioPosition)
    (changes : List AllocationChange) (baseCurrency now : String) :
    SimulateAllocationResult :=
  let originalTotal := (mvalues (buildValueMap positions)).sum
  let final := simFinalState positions changes
  let rows :=
    (final.valueMap.filter (fun kv => 0 < kv.2)).map fun kv =>
      { key := kv.1
        value := { currency := baseCurrency, amount := kv.2 }
        percent :=
          if 0 < final.newTotal then round2 (kv.2 / final.newTotal * 100)
          else 0 }
  let sorted := rows.mergeSort (fun a b => b.percent ≤ a.percent)
  let priceMissing := positions.any (fun p => nullOrZero p.marketPrice)
  let valuationMethod :=
    if priceMissing then ValuationMethod.cost_basis else ValuationMethod.market
  { accountId := "default"
    timeframeEnd := now
    valuationMethod := valuationMethod
    asOf := if valuationMethod = ValuationMethod.market then some now else none
    originalTotalValue := { currency := baseCurrency, amount := originalTotal }
    newTotalValue := { currency := baseCurrency, amount := final.newTotal }
    newAllocationBySymbol := sorted
    notes := final.notes }

/-! ## `GetPerformanceTool.sampleChart` -/

/-- One chart point of the provider's performance series. -/
structure HistoricalDataItem where
  date : String
  netWorth : Option ℚ
  netPerformanceInPercentage : Option ℚ
  deriving DecidableEq, Repr

/-- `MAX_CHART_POINTS`. -/
def MAX_CHART_POINTS : Nat := 20

/-- `GetPerformanceTool.sampleChart`: fixed-stride downsampling. The
JavaScript identity test `sampled[sampled.length-1] !== chart[chart.length-1]`
holds exactly when the stride did not select the last index, i.e. when
`(chart.length - 1) % step ≠ 0`. -/
def sampleChart (chart : List HistoricalDataItem) (maxPoints : Nat) :
    List HistoricalDataItem :=
  if chart.length ≤ maxPoints then chart
  else
    let step := (chart.length + maxPoints - 1) / maxPoints
    let sampled := (chart.enum.filter (fun p => p.1 % step = 0)).map Prod.snd
    if 0 < chart.length ∧ ¬(chart.length - 1) % step = 0 then
      sampled ++ chart.getLast?.toList
    else sampled

/-! ## SSE stream proxy (`proxyStreamToAgentEvents`)

The upstream byte stream is embedded as a list of decoded text chunks
(`List Char` each); JSON decoding of an event payload is an abstract
parameter `decode` (`JSON.parse` succeeding iff `decode` is `some`). The
`while` loop accumulates a buffer, splits off every complete
`"\n\n"`-terminated event, and keeps the partial tail. -/

/-- Left-to-right scan splitting the buffer at every `"\n\n"` boundary:
returns the complete raw events in order and the partial tail.
`acc` holds the chars of the current unfinished event, reversed. -/
def extractEventsAux (acc : List Char) : List Char → List (List Char) × List Char
  | [] => ([], acc.reverse)
  | [c] => ([], (c :: acc).reverse)
  | c :: c' :: rest =>
    if c = '\n' ∧ c' = '\n' then
      let p := extractEventsAux [] rest
      (acc.reverse :: p.1, p.2)
    else extractEventsAux (c :: acc) (c' :: rest)

/-- `buffer.indexOf('\n\n')` splitting loop of the source, run to
exhaustion on one buffer. -/
def extractEvents (buf : List Char) : List (List Char) × List Char :=
  extractEventsAux [] buf

/-- First `"\n\n"` boundary of a buffer: the part before it and the rest
after it (specification view of the same split). -/
def splitFirstBoundary : List Char → Option (List Char × List Char)
  | [] => none
  | [_] => none
  | c :: c' :: rest =>
    if c = '\n' ∧ c' = '\n' then some ([], rest)
    else
      match splitFirstBoundary (c' :: rest) with
      | some (p, q) => some (c :: p, q)
      | none => none

/-- JavaScript `String.prototype.trim` whitespace (the characters
relevant to SSE `data:` lines). -/
def isJsWhitespace (c : Char) : Bool :=
  c = ' ' || c = '\t' || c = '\n' || c = '\r' ||
    c = '\x0b' || c = '\x0c'

/-- `line.trim()`. -/
def jsTrim (l : List Char) : List Char :=
  ((l.dropWhile isJsWhitespace).reverse.dropWhile isJsWhitespace).reverse

/-- The `data:` field name. -/
def dataFieldName : List Char := ['d', 'a', 't', 'a', ':']

/-- The payload of one raw event: its `data:`-prefixed lines, each
stripped of the field name and trimmed, joined with `'\n'`. -/
def eventPayload (raw : List Char) : List Char :=
  List.intercalate ['\n']
    (((raw.splitOn '\n').filter (fun l => decide (dataFieldName <+: l))).map
      (fun l => jsTrim (l.drop 5)))

/-- Decode one raw event: empty payloads are skipped, and payloads
`JSON.parse` rejects (`decode` returns `none`) are silently dropped. -/
def decodeEventPayload {Ev : Type} (decode : List Char → Option Ev)
    (raw : List Char) : Option Ev :=
  let payload := eventPayload raw
  if payload.isEmpty then none else decode payload

/-- The incremental reader loop: per chunk, append to the buffer, emit
every complete event (decoded, malformed ones dropped), keep the tail. -/
def processChunks {Ev : Type} (decode : List Char → Option Ev) :
    List Char → List (List Char) → List Ev × List Char
  | buffer, [] => ([], buffer)
  | buffer, chunk :: rest =>
    let p := extractEvents (buffer ++ chunk)
    let evs := p.1.filterMap (decodeEventPayload decode)
    let q := processChunks decode p.2 rest
    (evs ++ q.1, q.2)

/-- Batch specification: split the whole upstream text at once and decode
each complete event in order. -/
def streamSpec {Ev : Type} (decode : List Char → Option Ev)
    (text : List Char) : List Ev × List Char :=
  ((extractEvents text).1.filterMap (decodeEventPayload decode),
   (extractEvents text).2)

/-- The WebSocket bridge's forwarding loop
(`for await (const event ...) ws.send(JSON.stringify(event))`), with the
serialized sends accumulated in send order. -/
def forwardLoop {Ev Msg : Type} (encode : Ev → Msg) (events : List Ev) :
    List Msg :=
  events.foldl (fun sent e => sent ++ [encode e]) []

/-! ## WebSocket gateway (`setupAgentWebSocket`) -/

/-- `AGENT_WS_PATH`. -/
def AGENT_WS_PATH : String := "/api/v1/agent/ws"

/-- What the `upgrade` handler does with an inbound request. -/
inductive UpgradeDecision where
  | destroyed
  | unauthorized
  | upgraded (userId : String) (bearerToken : String)
  deriving DecidableEq, Repr

/-- The `token` query parameter of a request URL (percent-decoding not
embedded; a bare `?token` yields the empty string, like
`searchParams.get`). -/
def getTokenParam (url : String) : Option String :=
  match (url.toList.dropWhile (· ≠ '?')) with
  | [] => none
  | _ :: query =>
    ((query.splitOn '&').find?
        (fun p => p.takeWhile (· ≠ '=') = "token".toList)).map
      (fun p => String.mk ((p.dropWhile (· ≠ '=')).drop 1))

/-- `s.startsWith(pre)`, embedded over character lists. -/
def strStartsWith (s pre : String) : Bool :=
  decide (pre.toList <+: s.toList)

/-- Strip a `Bearer ` prefix from the raw token. -/
def stripBearer (token : String) : String :=
  if strStartsWith token "Bearer " then (token.toList.drop 7).asString
  else token

/-- The `httpServer.on('upgrade', ...)` handler. `verify` embeds
`jwtService.verify` (`none` models both a thrown verification error and a
payload without a user id). -/
def handleUpgrade (verify : String → Option String) (url : String) :
    UpgradeDecision :=
  if ¬strStartsWith url AGENT_WS_PATH then .destroyed
  else
    match getTokenParam url with
    | none => .unauthorized
    | some token =>
      if token = "" then .unauthorized
      else
        match verify (stripBearer token) with
        | none => .unauthorized
        | some userId =>
          if userId = "" then .unauthorized
          else
            .upgraded userId
              (if strStartsWith token "Bearer " then token
               else "Bearer " ++ token)

/-- The path component of a request URL (everything before the query). -/
def urlPath (url : String) : String :=
  String.mk (url.toList.takeWhile (· ≠ '?'))

/-! ## Concrete fixtures used by witnesses and counterexamples -/

/-- A fully priced position worth `v` under symbol `sym`. -/
def pricedPos (sym : String) (v : ℚ) : PortfolioPosition :=
  ⟨sym, none, 1, "USD", some v, none, some v, none⟩

/-- Concrete portfolio for the C10 witness: A worth 100, B worth 50. -/
def c10Pos : List PortfolioPosition :=
  [pricedPos "A" 100, pricedPos "B" 50]

/-- Concrete changes for the C10 witness: oversell B (60 > 50). -/
def c10Changes : List AllocationChange :=
  [⟨ChangeType.sell, "B", "USD", 60⟩]

/-- Concrete portfolio refuting C3's ±1.0 sum tolerance: 201 positions
worth 99 and one worth 101 (total 20000); every raw percent is an exact
half-cent, so each of the 202 rows rounds up by 0.005 and the rounded
percents sum to 101.01. -/
def c3Pos : List PortfolioPosition :=
  List.replicate 201 (pricedPos "A" 99) ++ [pricedPos "B" 101]

/-- Concrete 100-point chart refuting C6's 20-point bound. -/
def c6Chart : List HistoricalDataItem :=
  List.replicate 100 ⟨"2026-01-01", some 1, some 0⟩

/-- Concrete registry for the C1 witness: `t1` enabled but throwing,
`t2` registered but disabled. -/
def c1Reg : RegistryM :=
  [("t1", ⟨true, fun _ => ExecOutcome.throws "boom"⟩),
   ("t2", ⟨false, fun _ => ExecOutcome.ok (ToolResultVal.opaqueResult "x")⟩)]

/-- Concrete LLM tool requests for the C1 witness: a throwing tool, an
unknown tool, and a disabled tool, in this order. -/
def c1Blocks : List ToolUseBlock :=
  [⟨"i1", "t1", ""⟩, ⟨"i2", "nope", ""⟩, ⟨"i3", "t2", ""⟩]

/-- Concrete chat environment for the C1 witness. -/
def c1Env : ChatEnv := ⟨true, c1Reg, [], c1Blocks, ["Answer."]⟩

/-- An answer matching the advice-boundary patterns. -/
def c4Answer : String :=
  "You should buy more AAPL because it has guaranteed returns."

/-- Direct-path environment for the C4 counterexample: LLM call #1
answers with advisory language and requests no tools. -/
def c4Env : ChatEnv := ⟨true, [], [c4Answer], [], []⟩

/-- Tool-path environment for the C4 witness: one tool request, then an
advisory final answer. -/
def c4ToolEnv : ChatEnv := ⟨true, c1Reg, [], [⟨"i1", "t1", ""⟩], [c4Answer]⟩

/-! ## Projection lemmas for `mapToSnapshot` -/

theorem mapToSnapshot_holdings (ps : List PortfolioPosition) (c n : String) :
    (mapToSnapshot ps c n).holdings = (retainedPositions ps).map (toHoldingRow c) := rfl

theorem mapToSnapshot_isPriceDataMissing (ps : List PortfolioPosition) (c n : String) :
    (mapToSnapshot ps c n).isPriceDataMissing =
      (retainedPositions ps).any positionMissingPrice := rfl

theorem mapToSnapshot_valuationMethod (ps : List PortfolioPosition) (c n : String) :
    (mapToSnapshot ps c n).valuationMethod =
      (if (retainedPositions ps).any positionMissingPrice = true
       then ValuationMethod.cost_basis else ValuationMethod.market) := rfl

theorem mapToSnapshot_asOf (ps : List PortfolioPosition) (c n : String) :
    (mapToSnapshot ps c n).asOf =
      (if (mapToSnapshot ps c n).valuationMethod = ValuationMethod.market
       then some n else none) := rfl

theorem mapToSnapshot_totalValue (ps : List PortfolioPosition) (c n : String) :
    (mapToSnapshot ps c n).totalValue =
      ⟨c, snapshotTotal ((retainedPositions ps).map (toHoldingRow c))⟩ := rfl

theorem mapToSnapshot_allocationBySymbol (ps : List PortfolioPosition) (c n : String) :
    (mapToSnapshot ps c n).allocationBySymbol =
      ((retainedPositions ps).map (toHoldingRow c)).map
        (allocationRowOf c (snapshotTotal ((retainedPositions ps).map (toHoldingRow c)))) := rfl

/-! ## C9 — `computeConfidence` decision table -/

/-- C9: `computeConfidence` equals the fixed decision table, evaluated in
priority order (all tools failed and none succeeded → 0.1; no holdings →
0.4; any tool failed → 0.4; price data missing or errors → 0.7;
otherwise 1.0), and the result always lies in [0, 1]. -/
theorem c9_computeConfidence_table (hasErrors isPriceDataMissing : Bool)
    (toolsSucceeded toolsFailed : Nat) (hasHoldings : Bool) :
    computeConfidence hasErrors isPriceDataMissing toolsSucceeded toolsFailed
        hasHoldings =
      (if 0 < toolsFailed ∧ toolsSucceeded = 0 then (0.1 : ℚ)
       else if ¬hasHoldings = true then 0.4
       else if 0 < toolsFailed then 0.4
       else if isPriceDataMissing = true ∨ hasErrors = true then 0.7
       else 1.0) ∧
    0 ≤ computeConfidence hasErrors isPriceDataMissing toolsSucceeded
        toolsFailed hasHoldings ∧
    computeConfidence hasErrors isPriceDataMissing toolsSucceeded toolsFailed
        hasHoldings ≤ 1 := by
  refine ⟨?_, ?_, ?_⟩
  · unfold computeConfidence
    cases hasHoldings <;> cases isPriceDataMissing <;> cases hasErrors <;>
      simp
    all_goals norm_num
  · unfold computeConfidence
    split_ifs <;> norm_num
  · unfold computeConfidence
    split_ifs <;> norm_num

/-! ## C2 — snapshot valuation-method invariant -/

/-- C2: `valuationMethod = cost_basis` iff at least one retained holding
(quantity > 0 or value > 0) has a null/zero market price or null/zero
value; `asOf` is null iff `valuationMethod = cost_basis`, and otherwise
equals the current date. -/
theorem c2_valuation_method_iff (positions : List PortfolioPosition)
    (baseCurrency now : String) :
    ((mapToSnapshot positions baseCurrency now).valuationMethod =
        ValuationMethod.cost_basis ↔
      ∃ p ∈ retainedPositions positions, positionMissingPrice p = true) ∧
    ((mapToSnapshot positions baseCurrency now).asOf = none ↔
      (mapToSnapshot positions baseCurrency now).valuationMethod =
        ValuationMethod.cost_basis) ∧
    (mapToSnapshot positions baseCurrency now).asOf =
      (if (mapToSnapshot positions baseCurrency now).valuationMethod =
          ValuationMethod.cost_basis then none else some now) := by
  refine ⟨?_, ?_, ?_⟩
  · rw [mapToSnapshot_valuationMethod]
    cases h : (retainedPositions positions).any positionMissingPrice
    · simp only [List.any_eq_false] at h
      have hne : ¬∃ p ∈ retainedPositions positions,
          positionMissingPrice p = true := by
        rintro ⟨p, hp, hm⟩
        exact absurd hm (by simpa using h p hp)
      simp [hne]
    · simp only [List.any_eq_true] at h
      simpa using h
  · rw [mapToSnapshot_asOf, mapToSnapshot_valuationMethod]
    cases h : (retainedPositions positions).any positionMissingPrice <;> simp
  · rw [mapToSnapshot_asOf, mapToSnapshot_valuationMethod]
    cases h : (retainedPositions positions).any positionMissingPrice <;> simp

/-! ## `MapList` lemmas -/

theorem mget_mset_self {α : Type} (m : MapList α) (k : String) (v : α) :
    mget (mset m k v) k = some v := by
  induction m with
  | nil => simp [mset, mget]
  | cons kv rest ih =>
    obtain ⟨k', v'⟩ := kv
    by_cases h : k' = k <;> simp [mset, mget, h, ih]

theorem mkeys_mset {α : Type} (m : MapList α) (k : String) (v : α) :
    mkeys (mset m k v) = if k ∈ mkeys m then mkeys m else mkeys m ++ [k] := by
  induction m with
  | nil => simp [mset, mkeys]
  | cons kv rest ih =>
    obtain ⟨k', v'⟩ := kv
    by_cases h : k' = k
    · subst h
      simp [mset, mkeys]
    · have h' : ¬k = k' := fun hh => h hh.symm
      simp only [mset, if_neg h, mkeys, List.map_cons]
      simp only [mkeys] at ih
      rw [ih]
      simp only [List.mem_cons, h', false_or]
      by_cases hk : k ∈ List.map Prod.fst rest <;> simp [hk]

theorem nodup_mkeys_mset {α : Type} (m : MapList α) (k : String) (v : α)
    (h : (mkeys m).Nodup) : (mkeys (mset m k v)).Nodup := by
  rw [mkeys_mset]
  by_cases hk : k ∈ mkeys m
  · simpa [hk]
  · simpa [hk, List.nodup_append] using h

theorem mget_of_mem_nodup {α : Type} (m : MapList α) (k : String) (v : α)
    (hnd : (mkeys m).Nodup) (hmem : (k, v) ∈ m) : mget m k = some v := by
  induction m with
  | nil => simp at hmem
  | cons kv rest ih =>
    obtain ⟨k', v'⟩ := kv
    simp only [mkeys, List.map_cons, List.nodup_cons] at hnd
    rcases List.mem_cons.mp hmem with hh | hh
    · injection hh with h1 h2
      subst h1
      subst h2
      simp [mget]
    · by_cases h : k' = k
      · exfalso
        apply hnd.1
        rw [h]
        exact List.mem_map_of_mem Prod.fst hh
      · simpa [mget, h] using ih hnd.2 hh

theorem nodup_mkeys_buildValueMap (positions : List PortfolioPosition) :
    (mkeys (buildValueMap positions)).Nodup := by
  have step : ∀ (ps : List PortfolioPosition) (m : MapList ℚ),
      (mkeys m).Nodup →
      (mkeys (ps.foldl
        (fun m p =>
          if positionRetained p then mset m p.symbol (simPositionValue p)
          else m) m)).Nodup := by
    intro ps
    induction ps with
    | nil => intro m h; simpa using h
    | cons p rest ih =>
      intro m h
      simp only [List.foldl_cons]
      apply ih
      by_cases hp : positionRetained p = true
      · simpa [hp] using nodup_mkeys_mset m p.symbol (simPositionValue p) h
      · simpa [hp] using h
  simpa [buildValueMap] using step positions [] (by simp [mkeys])

theorem applyChange_valueMap_shape (st : SimState) (c : AllocationChange) :
    ∃ v, (applyChange st c).valueMap = mset st.valueMap c.symbol v := by
  unfold applyChange
  cases c.ctype
  · exact ⟨_, rfl⟩
  · by_cases hov : (mget st.valueMap c.symbol).getD 0 - c.amount < 0
    · exact ⟨0, by simp [hov]⟩
    · exact ⟨(mget st.valueMap c.symbol).getD 0 - c.amount, by simp [hov]⟩

theorem nodup_mkeys_applyChange (st : SimState) (c : AllocationChange)
    (h : (mkeys st.valueMap).Nodup) :
    (mkeys (applyChange st c).valueMap).Nodup := by
  obtain ⟨v, hv⟩ := applyChange_valueMap_shape st c
  rw [hv]
  exact nodup_mkeys_mset _ _ _ h

theorem nodup_mkeys_simFinalState (positions : List PortfolioPosition)
    (changes : List AllocationChange) :
    (mkeys (simFinalState positions changes).valueMap).Nodup := by
  have step : ∀ (cs : List AllocationChange) (st : SimState),
      (mkeys st.valueMap).Nodup →
      (mkeys (cs.foldl applyChange st).valueMap).Nodup := by
    intro cs
    induction cs with
    | nil => intro st h; simpa using h
    | cons c rest ih =>
      intro st h
      simp only [List.foldl_cons]
      exact ih _ (nodup_mkeys_applyChange st c h)
  exact step changes _ (nodup_mkeys_buildValueMap positions)

/-! ## C5 — oversell clamps to zero -/

/-- C5: applying a sell whose amount strictly exceeds the symbol's
current tracked value never fails: the symbol's value is set to exactly
0, a warning note is appended, and the running total decreases by exactly
the pre-clamp current value — not by the requested sell amount. -/
theorem c5_oversell_clamps (st : SimState) (c : AllocationChange)
    (hsell : c.ctype = ChangeType.sell)
    (hover : (mget st.valueMap c.symbol).getD 0 < c.amount) :
    mget (applyChange st c).valueMap c.symbol = some 0 ∧
    (applyChange st c).newTotal =
      st.newTotal - (mget st.valueMap c.symbol).getD 0 ∧
    (applyChange st c).notes = st.notes ++
      [SimNote.oversellNote c.amountCurrency c.amount c.symbol
        ((mget st.valueMap c.symbol).getD 0)] ∧
    (applyChange st c).newTotal ≠ st.newTotal - c.amount := by
  have hlt : (mget st.valueMap c.symbol).getD 0 - c.amount < 0 := by linarith
  have happ : applyChange st c =
      { valueMap := mset st.valueMap c.symbol 0
        newTotal := st.newTotal - (mget st.valueMap c.symbol).getD 0
        notes := st.notes ++
          [SimNote.oversellNote c.amountCurrency c.amount c.symbol
            ((mget st.valueMap c.symbol).getD 0)] } := by
    unfold applyChange
    rw [hsell]
    simp [hlt]
  rw [happ]
  refine ⟨mget_mset_self _ _ _, rfl, rfl, ?_⟩
  simp only [ne_eq, sub_right_inj]
  exact fun hcontra => absurd hcontra (ne_of_lt hover)

/-- Witness for C5 at a concrete oversell: selling 250 of a symbol worth
100 clamps it to 0 and reduces the total by 100, not 250. -/
theorem c5_oversell_clamps_witness :
    mget (applyChange ⟨[("VTI", 100)], 150, []⟩
        ⟨ChangeType.sell, "VTI", "USD", 250⟩).valueMap "VTI" = some 0 ∧
    (applyChange ⟨[("VTI", 100)], 150, []⟩
        ⟨ChangeType.sell, "VTI", "USD", 250⟩).newTotal = 150 - 100 ∧
    (applyChange ⟨[("VTI", 100)], 150, []⟩
        ⟨ChangeType.sell, "VTI", "USD", 250⟩).notes =
      [] ++ [SimNote.oversellNote "USD" 250 "VTI" 100] ∧
    (applyChange ⟨[("VTI", 100)], 150, []⟩
        ⟨ChangeType.sell, "VTI", "USD", 250⟩).newTotal ≠ 150 - 250 := by
  have h := c5_oversell_clamps ⟨[("VTI", 100)], 150, []⟩
    ⟨ChangeType.sell, "VTI", "USD", 250⟩ rfl (by norm_num [mget])
  simpa [mget] using h

/-! ## C10 — simulated allocation lists only positive values -/

theorem simulateExecute_newAllocationBySymbol (positions : List PortfolioPosition)
    (changes : List AllocationChange) (baseCurrency now : String) :
    (simulateExecute positions changes baseCurrency now).newAllocationBySymbol =
      (((simFinalState positions changes).valueMap.filter
          (fun kv => 0 < kv.2)).map fun kv =>
        ({ key := kv.1
           value := { currency := baseCurrency, amount := kv.2 }
           percent :=
             if 0 < (simFinalState positions changes).newTotal
             then round2 (kv.2 / (simFinalState positions changes).newTotal * 100)
             else 0 } : AllocationRow)).mergeSort
        (fun a b => b.percent ≤ a.percent) := rfl

theorem simulateExecute_originalTotalValue (positions : List PortfolioPosition)
    (changes : List AllocationChange) (baseCurrency now : String) :
    (simulateExecute positions changes baseCurrency now).originalTotalValue =
      ⟨baseCurrency, (mvalues (buildValueMap positions)).sum⟩ := rfl

/-- C10: every entry of `newAllocationBySymbol` has a strictly positive
value; a symbol whose tracked value ended at zero (e.g. a clamped or full
sell) is omitted from the list; and `originalTotalValue` is the sum of
the pre-change tracked values, unaffected by the changes. -/
theorem c10_new_allocation_positive (positions : List PortfolioPosition)
    (changes : List AllocationChange) (baseCurrency now : String) :
    (∀ row ∈ (simulateExecute positions changes baseCurrency
        now).newAllocationBySymbol, 0 < row.value.amount) ∧
    (∀ sym, mget (simFinalState positions changes).valueMap sym = some 0 →
      ∀ row ∈ (simulateExecute positions changes baseCurrency
          now).newAllocationBySymbol, row.key ≠ sym) ∧
    (simulateExecute positions changes baseCurrency now).originalTotalValue =
      ⟨baseCurrency, (mvalues (buildValueMap positions)).sum⟩ := by
  refine ⟨?_, ?_, rfl⟩
  · intro row hrow
    rw [simulateExecute_newAllocationBySymbol, List.mem_mergeSort] at hrow
    obtain ⟨kv, hkv, hrow⟩ := List.mem_map.mp hrow
    have hf := List.mem_filter.mp hkv
    rw [← hrow]
    simpa using hf.2
  · intro sym hsym row hrow heq
    rw [simulateExecute_newAllocationBySymbol, List.mem_mergeSort] at hrow
    obtain ⟨kv, hkv, hrow⟩ := List.mem_map.mp hrow
    have hf := List.mem_filter.mp hkv
    have hpos : 0 < kv.2 := by simpa using hf.2
    have hkey : kv.1 = sym := by rw [← hrow] at heq; exact heq
    have hmem : (sym, kv.2) ∈ (simFinalState positions changes).valueMap := by
      rw [← hkey]
      exact hf.1
    have hlookup := mget_of_mem_nodup _ sym kv.2
      (nodup_mkeys_simFinalState positions changes) hmem
    rw [hsym] at hlookup
    have : (0 : ℚ) = kv.2 := by injection hlookup
    exact absurd this.symm (ne_of_gt hpos)

/-- Witness for C10: after the clamped sell, B's tracked value is 0, B is
omitted from the returned allocation list, and the original total still
counts B's 50. -/
theorem c10_new_allocation_positive_witness :
    mget (simFinalState c10Pos c10Changes).valueMap "B" = some 0 ∧
    (∀ row ∈ (simulateExecute c10Pos c10Changes "USD"
        "2026-02-03").newAllocationBySymbol, row.key ≠ "B") ∧
    (simulateExecute c10Pos c10Changes "USD" "2026-02-03").originalTotalValue =
      ⟨"USD", 150⟩ := by
  have hB : mget (simFinalState c10Pos c10Changes).valueMap "B" = some 0 := by
    simp [simFinalState, buildValueMap, c10Pos, c10Changes, positionRetained,
      simPositionValue, applyChange, mset, mget, pricedPos]
  refine ⟨hB,
    (c10_new_allocation_positive c10Pos c10Changes "USD" "2026-02-03").2.1 "B" hB,
    ?_⟩
  rw [simulateExecute_originalTotalValue]
  simp [buildValueMap, c10Pos, positionRetained, simPositionValue, mset, mget,
    mvalues, pricedPos]
  norm_num

/-! ## C6 — chart downsampling -/

theorem length_filter_range_mod (s : Nat) (hs : 0 < s) (n : Nat) :
    ((List.range n).filter (fun i => decide (i % s = 0))).length =
      (n + s - 1) / s := by
  induction n with
  | zero =>
    simp only [List.range_zero, List.filter_nil, List.length_nil, Nat.zero_add]
    rw [Nat.div_eq_of_lt (by omega)]
  | succ n ih =>
    rw [List.range_succ, List.filter_append, List.length_append, ih]
    have hns : n + 1 + s - 1 = n + s - 1 + 1 := by omega
    rw [hns, Nat.succ_div]
    have hiff : s ∣ n + s - 1 + 1 ↔ s ∣ n := by
      rw [show n + s - 1 + 1 = n + s by omega]
      exact Nat.dvd_add_self_right
    by_cases h : n % s = 0
    · rw [if_pos (hiff.mpr (Nat.dvd_of_mod_eq_zero h))]
      simp [h]
    · rw [if_neg (fun hd => h (Nat.mod_eq_zero_of_dvd (hiff.mp hd)))]
      simp [h]

theorem length_enum_filter_mod {α : Type} (s : Nat) (l : List α) :
    ((l.enum.filter (fun p => decide (p.1 % s = 0))).map Prod.snd).length =
      ((List.range l.length).filter (fun i => decide (i % s = 0))).length := by
  rw [List.length_map]
  induction l using List.reverseRecOn with
  | nil => simp
  | append_singleton l a ih =>
    rw [List.enum_append, show (l ++ [a]).length = l.length + 1 from by simp,
      List.range_succ, List.filter_append, List.filter_append,
      List.length_append, List.length_append, ih]
    congr 1
    by_cases h : l.length % s = 0 <;> simp [List.enumFrom, h]

theorem getLast_enum_filter {α : Type} (s : Nat) (l : List α) (a : α)
    (h : l.length % s = 0) :
    (((l ++ [a]).enum.filter (fun p => decide (p.1 % s = 0))).map
      Prod.snd).getLast? = some a := by
  rw [List.enum_append]
  have hone : List.enumFrom l.length [a] = [(l.length, a)] := by
    simp [List.enumFrom]
  rw [hone, List.filter_append]
  have hkeep : List.filter (fun p => decide (p.1 % s = 0)) [(l.length, a)] =
      [(l.length, a)] := by simp [h]
  rw [hkeep, List.map_append]
  exact List.getLast?_concat _

/-- C6 (amended): `sampleChart` returns a series of ≤ 20 points
unchanged; otherwise it selects points by the fixed stride
`step = ⌈length/20⌉` and appends the last point when the stride missed
it, so the result has at most 21 points (not 20) and always retains the
input's last point. -/
theorem c6_sample_chart_bounds (chart : List HistoricalDataItem) :
    (chart.length ≤ 20 → sampleChart chart 20 = chart) ∧
    (sampleChart chart 20).length ≤ 21 ∧
    (chart ≠ [] → (sampleChart chart 20).getLast? = chart.getLast?) ∧
    (20 < chart.length →
      sampleChart chart 20 =
        (chart.enum.filter
          (fun p => decide (p.1 % ((chart.length + 20 - 1) / 20) = 0))).map
            Prod.snd ++
        (if (chart.length - 1) % ((chart.length + 20 - 1) / 20) = 0 then []
         else chart.getLast?.toList)) := by
  by_cases hlen : chart.length ≤ 20
  · have hid : sampleChart chart 20 = chart := by
      unfold sampleChart
      rw [if_pos hlen]
    exact ⟨fun _ => hid, by rw [hid]; omega, fun _ => by rw [hid],
      fun h => absurd hlen (by omega)⟩
  · push_neg at hlen
    have hne : chart ≠ [] := by
      intro hnil
      rw [hnil] at hlen
      simp at hlen
    have hbig : sampleChart chart 20 =
        (chart.enum.filter
          (fun p => decide (p.1 % ((chart.length + 20 - 1) / 20) = 0))).map
            Prod.snd ++
        (if (chart.length - 1) % ((chart.length + 20 - 1) / 20) = 0 then []
         else chart.getLast?.toList) := by
      unfold sampleChart
      rw [if_neg (by omega)]
      by_cases hlast : (chart.length - 1) % ((chart.length + 20 - 1) / 20) = 0
      · rw [if_neg (fun hand => hand.2 hlast), if_pos hlast, List.append_nil]
      · rw [if_pos ⟨by omega, hlast⟩, if_neg hlast]
    have hlen20 : ((chart.enum.filter
        (fun p => decide (p.1 % ((chart.length + 20 - 1) / 20) = 0))).map
          Prod.snd).length ≤ 20 := by
      rw [length_enum_filter_mod, length_filter_range_mod _ (by omega)]
      have h2 : 0 < (chart.length + 20 - 1) / 20 := by omega
      have h3 : chart.length + (chart.length + 20 - 1) / 20 - 1 <
          21 * ((chart.length + 20 - 1) / 20) := by omega
      have h4 := (Nat.div_lt_iff_lt_mul h2).mpr h3
      omega
    refine ⟨fun h => absurd h (by omega), ?_, fun _ => ?_, fun _ => hbig⟩
    · rw [hbig, List.length_append]
      have : (if (chart.length - 1) % ((chart.length + 20 - 1) / 20) = 0
          then ([] : List HistoricalDataItem)
          else chart.getLast?.toList).length ≤ 1 := by
        split
        · simp
        · cases h : chart.getLast? <;> simp [Option.toList]
      omega
    · rw [hbig]
      by_cases hlast : (chart.length - 1) % ((chart.length + 20 - 1) / 20) = 0
      · rw [if_pos hlast, List.append_nil]
        have hsplit := List.dropLast_append_getLast hne
        have hdrop : chart.dropLast.length % ((chart.length + 20 - 1) / 20) = 0 := by
          rw [List.length_dropLast]
          exact hlast
        calc ((chart.enum.filter
              (fun p => decide (p.1 % ((chart.length + 20 - 1) / 20) = 0))).map
                Prod.snd).getLast?
            = (((chart.dropLast ++ [chart.getLast hne]).enum.filter
              (fun p => decide (p.1 % ((chart.length + 20 - 1) / 20) = 0))).map
                Prod.snd).getLast? := by rw [hsplit]
          _ = some (chart.getLast hne) := getLast_enum_filter _ _ _ hdrop
          _ = chart.getLast? := (List.getLast?_eq_getLast chart hne).symm
      · rw [if_neg hlast]
        obtain ⟨x, hx⟩ : ∃ x, chart.getLast? = some x := by
          cases h : chart.getLast?
          · exact absurd (List.getLast?_eq_none_iff.mp h) hne
          · exact ⟨_, rfl⟩
        rw [hx]
        simp only [Option.toList]
        rw [List.getLast?_concat]

/-- Witness for C6 (amended) at concrete charts: a 5-point series is
returned unchanged, and the 100-point series stays within 21 points and
retains its last point. -/
theorem c6_sample_chart_bounds_witness :
    sampleChart (List.replicate 5 ⟨"2026-01-01", some 1, some 0⟩) 20 =
      List.replicate 5 ⟨"2026-01-01", some 1, some 0⟩ ∧
    (sampleChart c6Chart 20).length ≤ 21 ∧
    (sampleChart c6Chart 20).getLast? = c6Chart.getLast? :=
  ⟨(c6_sample_chart_bounds
      (List.replicate 5 ⟨"2026-01-01", some 1, some 0⟩)).1 (by simp),
   (c6_sample_chart_bounds c6Chart).2.1,
   (c6_sample_chart_bounds c6Chart).2.2.1 (by simp [c6Chart])⟩

/-- Counterexample to C6 as stated: a 100-point series downsamples to 21
points (stride 5 selects 20 indices, then index 99 is appended), which
exceeds the claimed 20-point bound. -/
theorem c6_counterexample :
    (sampleChart c6Chart 20).length = 21 ∧
    ¬(sampleChart c6Chart 20).length ≤ 20 := by
  constructor
  · rfl
  · intro h
    have : (sampleChart c6Chart 20).length = 21 := rfl
    omega

/-! ## C3 — allocation percent rounding and sum tolerance -/

theorem abs_round2_sub_le (x : ℚ) : |round2 x - x| ≤ 1 / 200 := by
  have h := abs_sub_round (x * 100)
  rw [abs_sub_comm] at h
  rw [round2]
  have heq : |(round (x * 100) : ℚ) / 100 - x| =
      |(round (x * 100) : ℚ) - x * 100| / 100 := by
    rw [← abs_of_pos (show (0 : ℚ) < 100 by norm_num), ← abs_div]
    congr 1
    field_simp
    ring
  rw [heq]
  calc |(round (x * 100) : ℚ) - x * 100| / 100 ≤ (1 / 2) / 100 :=
        (div_le_div_iff_of_pos_right (by norm_num)).mpr h
    _ = 1 / 200 := by norm_num

theorem abs_sum_round2_sub (l : List ℚ) :
    |(l.map round2).sum - l.sum| ≤ (l.length : ℚ) / 200 := by
  induction l with
  | nil => simp
  | cons x xs ih =>
    simp only [List.map_cons, List.sum_cons, List.length_cons]
    have h1 := abs_round2_sub_le x
    calc |round2 x + (xs.map round2).sum - (x + xs.sum)|
        = |(round2 x - x) + ((xs.map round2).sum - xs.sum)| := by ring_nf
      _ ≤ |round2 x - x| + |(xs.map round2).sum - xs.sum| := abs_add _ _
      _ ≤ 1 / 200 + (xs.length : ℚ) / 200 := add_le_add h1 ih
      _ = ((xs.length : ℕ) + 1 : ℚ) / 200 := by ring
      _ = (((xs.length + 1 : ℕ)) : ℚ) / 200 := by push_cast; ring

theorem sum_rawPercent (holdings : List HoldingRow)
    (hT : 0 < snapshotTotal holdings) :
    (holdings.map (rawPercent (snapshotTotal holdings))).sum = 100 := by
  have hfun : ∀ h ∈ holdings, rawPercent (snapshotTotal holdings) h =
      fallbackAmount h * (100 / snapshotTotal holdings) := by
    intro h _
    rw [rawPercent, if_pos hT]
    ring
  rw [List.map_congr_left hfun]
  have := List.sum_map_mul_right holdings fallbackAmount
    (100 / snapshotTotal holdings)
  rw [this]
  have hne : snapshotTotal holdings ≠ 0 := ne_of_gt hT
  rw [show (holdings.map fallbackAmount).sum = snapshotTotal holdings from rfl]
  field_simp

/-- C3 (amended): each `allocationBySymbol` percent is the holding's
value-or-cost-basis divided by the total, times 100, rounded to two
decimals (and 0 when the total is not positive); for a positive total the
percent sum deviates from 100 by at most `n/200` for `n` holdings — hence
by at most 1.0 whenever the snapshot has at most 200 holdings, but not in
general (see the counterexample). -/
theorem c3_allocation_formula_and_sum_bound (positions : List PortfolioPosition)
    (baseCurrency now : String) :
    ((mapToSnapshot positions baseCurrency now).allocationBySymbol.map
        (·.percent) =
      (mapToSnapshot positions baseCurrency now).holdings.map
        (fun h => round2 (rawPercent
          (mapToSnapshot positions baseCurrency now).totalValue.amount h))) ∧
    ((mapToSnapshot positions baseCurrency now).totalValue.amount = 0 →
      ∀ q ∈ (mapToSnapshot positions baseCurrency now).allocationBySymbol.map
        (·.percent), q = 0) ∧
    (0 < (mapToSnapshot positions baseCurrency now).totalValue.amount →
      |((mapToSnapshot positions baseCurrency now).allocationBySymbol.map
          (·.percent)).sum - 100| ≤
        ((mapToSnapshot positions baseCurrency now).holdings.length : ℚ) / 200) ∧
    (0 < (mapToSnapshot positions baseCurrency now).totalValue.amount →
      (mapToSnapshot positions baseCurrency now).holdings.length ≤ 200 →
      |((mapToSnapshot positions baseCurrency now).allocationBySymbol.map
          (·.percent)).sum - 100| ≤ 1) := by
  have hform : (mapToSnapshot positions baseCurrency now).allocationBySymbol.map
      (·.percent) =
      (mapToSnapshot positions baseCurrency now).holdings.map
        (fun h => round2 (rawPercent
          (mapToSnapshot positions baseCurrency now).totalValue.amount h)) := by
    rw [mapToSnapshot_allocationBySymbol, mapToSnapshot_holdings, List.map_map]
    rfl
  have hbound : 0 < (mapToSnapshot positions baseCurrency now).totalValue.amount →
      |((mapToSnapshot positions baseCurrency now).allocationBySymbol.map
          (·.percent)).sum - 100| ≤
        ((mapToSnapshot positions baseCurrency now).holdings.length : ℚ) / 200 := by
    intro hT
    rw [hform]
    have hT' : 0 < snapshotTotal
        ((retainedPositions positions).map (toHoldingRow baseCurrency)) := hT
    have hsum := sum_rawPercent
      ((retainedPositions positions).map (toHoldingRow baseCurrency)) hT'
    have habs := abs_sum_round2_sub
      (((retainedPositions positions).map (toHoldingRow baseCurrency)).map
        (rawPercent (snapshotTotal
          ((retainedPositions positions).map (toHoldingRow baseCurrency)))))
    rw [hsum, List.length_map] at habs
    calc |(((mapToSnapshot positions baseCurrency now).holdings.map
          (fun h => round2 (rawPercent
            (mapToSnapshot positions baseCurrency now).totalValue.amount h))).sum
            - 100)|
        = |((((retainedPositions positions).map (toHoldingRow baseCurrency)).map
            (rawPercent (snapshotTotal ((retainedPositions positions).map
              (toHoldingRow baseCurrency))))).map round2).sum - 100| := by
          rw [mapToSnapshot_holdings]
          simp only [List.map_map]
          rfl
      _ ≤ (((retainedPositions positions).map (toHoldingRow baseCurrency)).length
            : ℚ) / 200 := habs
      _ = ((mapToSnapshot positions baseCurrency now).holdings.length : ℚ) /
            200 := by rw [mapToSnapshot_holdings]
  refine ⟨hform, ?_, hbound, ?_⟩
  · intro hT0 q hq
    rw [hform] at hq
    obtain ⟨h, _, hq⟩ := List.mem_map.mp hq
    rw [← hq, rawPercent, if_neg (by rw [hT0]; exact lt_irrefl 0)]
    simp [round2]
  · intro hT hn
    refine le_trans (hbound hT) ?_
    rw [div_le_one (by norm_num)]
    exact_mod_cast le_trans (Nat.cast_le.mpr hn) (by norm_num)

/-- Witness for C3 (amended) at a two-holding portfolio with positive
total: the percent sum is within 2/200 — in particular within 1.0 — of
100. -/
theorem c3_allocation_formula_and_sum_bound_witness :
    0 < (mapToSnapshot c10Pos "USD" "2026-02-03").totalValue.amount ∧
    |((mapToSnapshot c10Pos "USD" "2026-02-03").allocationBySymbol.map
        (·.percent)).sum - 100| ≤ 1 := by
  have hpos : 0 < (mapToSnapshot c10Pos "USD" "2026-02-03").totalValue.amount := by
    rw [mapToSnapshot_totalValue]
    show (0 : ℚ) < snapshotTotal _
    norm_num [snapshotTotal, retainedPositions, positionRetained, c10Pos,
      pricedPos, toHoldingRow, moneyOfTruthy, fallbackAmount]
  exact ⟨hpos,
    (c3_allocation_formula_and_sum_bound c10Pos "USD" "2026-02-03").2.2.2 hpos
      (by decide)⟩

set_option maxRecDepth 8000 in
/-- Counterexample to C3's universal ±1.0 tolerance: on `c3Pos` (202
holdings, total 20000) every raw percent is an exact half-cent, each row
rounds up, and the rounded percents sum to 101.01 — deviation 1.01 > 1.0
despite a positive total. -/
theorem c3_counterexample :
    0 < (mapToSnapshot c3Pos "USD" "2026-02-03").totalValue.amount ∧
    ¬|((mapToSnapshot c3Pos "USD" "2026-02-03").allocationBySymbol.map
        (·.percent)).sum - 100| ≤ 1 := by
  have hsplit : c3Pos =
      List.replicate 201 (pricedPos "A" 99) ++ [pricedPos "B" 101] := rfl
  have hfilter : retainedPositions c3Pos =
      List.replicate 201 (pricedPos "A" 99) ++ [pricedPos "B" 101] := by
    rw [retainedPositions, hsplit, List.filter_append]
    congr 1
  have hH : (retainedPositions c3Pos).map (toHoldingRow "USD") =
      List.replicate 201 (toHoldingRow "USD" (pricedPos "A" 99)) ++
        [toHoldingRow "USD" (pricedPos "B" 101)] := by
    rw [hfilter, List.map_append, List.map_replicate]
    rfl
  have hfA : fallbackAmount (toHoldingRow "USD" (pricedPos "A" 99)) = 99 := by
    decide
  have hfB : fallbackAmount (toHoldingRow "USD" (pricedPos "B" 101)) = 101 := by
    decide
  have hT2 : snapshotTotal
      (List.replicate 201 (toHoldingRow "USD" (pricedPos "A" 99)) ++
        [toHoldingRow "USD" (pricedPos "B" 101)]) = 20000 := by
    rw [snapshotTotal, List.map_append, List.map_replicate, List.sum_append,
      List.sum_replicate, hfA]
    simp only [List.map_cons, List.map_nil, List.sum_cons, List.sum_nil, hfB]
    norm_num
  have hpA : (allocationRowOf "USD" 20000
      (toHoldingRow "USD" (pricedPos "A" 99))).percent = 1 / 2 := by
    show round2 (rawPercent 20000 (toHoldingRow "USD" (pricedPos "A" 99))) = 1 / 2
    rw [rawPercent, if_pos (by norm_num), hfA]
    norm_num [round2, round_eq]
  have hpB : (allocationRowOf "USD" 20000
      (toHoldingRow "USD" (pricedPos "B" 101))).percent = 51 / 100 := by
    show round2 (rawPercent 20000 (toHoldingRow "USD" (pricedPos "B" 101))) =
      51 / 100
    rw [rawPercent, if_pos (by norm_num), hfB]
    norm_num [round2, round_eq]
  constructor
  · rw [mapToSnapshot_totalValue]
    show (0 : ℚ) < snapshotTotal ((retainedPositions c3Pos).map (toHoldingRow "USD"))
    rw [hH, hT2]
    norm_num
  · rw [mapToSnapshot_allocationBySymbol, hH, hT2]
    simp only [List.map_append, List.map_replicate, List.map_cons, List.map_nil,
      List.sum_append, List.sum_replicate, List.sum_cons, List.sum_nil, hpA, hpB]
    have hval : (201 : ℕ) • ((1 : ℚ) / 2) + (51 / 100 + 0) - 100 = 101 / 100 := by
      norm_num
    rw [hval, abs_of_pos (by norm_num)]
    norm_num

/-! ## C7 — SSE event framing -/

theorem aux_eq_split (n : Nat) (input : List Char) (hlen : input.length ≤ n) :
    ∀ acc, extractEventsAux acc input =
      match splitFirstBoundary input with
      | none => ([], acc.reverse ++ input)
      | some (e, rest) =>
        ((acc.reverse ++ e) :: (extractEventsAux [] rest).1,
          (extractEventsAux [] rest).2) := by
  induction n generalizing input with
  | zero =>
    intro acc
    have hnil : input = [] := List.eq_nil_of_length_eq_zero (by omega)
    subst hnil
    simp [extractEventsAux, splitFirstBoundary]
  | succ n ih =>
    intro acc
    match input with
    | [] => simp [extractEventsAux, splitFirstBoundary]
    | [c] => simp [extractEventsAux, splitFirstBoundary]
    | c :: c' :: rest =>
      by_cases hb : c = '\n' ∧ c' = '\n'
      · obtain ⟨h1, h2⟩ := hb
        subst h1
        subst h2
        simp [extractEventsAux, splitFirstBoundary]
      · have hstep : extractEventsAux acc (c :: c' :: rest) =
            extractEventsAux (c :: acc) (c' :: rest) := by
          simp [extractEventsAux, hb]
        rw [hstep, ih (c' :: rest) (by simp at hlen ⊢; omega) (c :: acc)]
        cases hs : splitFirstBoundary (c' :: rest) with
        | none => simp [splitFirstBoundary, hb, hs]
        | some pq =>
          obtain ⟨p, q⟩ := pq
          simp [splitFirstBoundary, hb, hs]

theorem extractEvents_eq (buf : List Char) :
    extractEvents buf =
      match splitFirstBoundary buf with
      | none => ([], buf)
      | some (e, rest) =>
        (e :: (extractEvents rest).1, (extractEvents rest).2) := by
  have h := aux_eq_split buf.length buf le_rfl []
  rw [extractEvents, h]
  cases hs : splitFirstBoundary buf with
  | none => simp
  | some pq =>
    obtain ⟨p, q⟩ := pq
    simp [extractEvents]

theorem splitFirstBoundary_length (n : Nat) (buf : List Char)
    (hlen : buf.length ≤ n) :
    ∀ e rest, splitFirstBoundary buf = some (e, rest) →
      buf.length = e.length + 2 + rest.length := by
  induction n generalizing buf with
  | zero =>
    intro e rest h
    have hnil : buf = [] := List.eq_nil_of_length_eq_zero (by omega)
    subst hnil
    simp [splitFirstBoundary] at h
  | succ n ih =>
    intro e rest h
    match buf with
    | [] => simp [splitFirstBoundary] at h
    | [c] => simp [splitFirstBoundary] at h
    | c :: c' :: tl =>
      by_cases hb : c = '\n' ∧ c' = '\n'
      · simp [splitFirstBoundary, hb] at h
        obtain ⟨he, hr⟩ := h
        subst he
        subst hr
        simp
        omega
      · simp only [splitFirstBoundary, if_neg hb] at h
        cases hs : splitFirstBoundary (c' :: tl) with
        | none => rw [hs] at h; simp at h
        | some pq =>
          obtain ⟨p, q⟩ := pq
          rw [hs] at h
          simp at h
          obtain ⟨he, hr⟩ := h
          have := ih (c' :: tl) (by simp at hlen ⊢; omega) p q hs
          subst he
          subst hr
          simp at this ⊢
          omega

theorem splitFirstBoundary_append (n : Nat) (a : List Char)
    (hlen : a.length ≤ n) (b : List Char) :
    ∀ e rest, splitFirstBoundary a = some (e, rest) →
      splitFirstBoundary (a ++ b) = some (e, rest ++ b) := by
  induction n generalizing a with
  | zero =>
    intro e rest h
    have hnil : a = [] := List.eq_nil_of_length_eq_zero (by omega)
    subst hnil
    simp [splitFirstBoundary] at h
  | succ n ih =>
    intro e rest h
    match a with
    | [] => simp [splitFirstBoundary] at h
    | [c] => simp [splitFirstBoundary] at h
    | c :: c' :: tl =>
      by_cases hb : c = '\n' ∧ c' = '\n'
      · simp [splitFirstBoundary, hb] at h ⊢
        obtain ⟨he, hr⟩ := h
        subst he
        subst hr
        exact ⟨rfl, rfl⟩
      · simp only [splitFirstBoundary, if_neg hb] at h
        cases hs : splitFirstBoundary (c' :: tl) with
        | none => rw [hs] at h; simp at h
        | some pq =>
          obtain ⟨p, q⟩ := pq
          rw [hs] at h
          simp at h
          obtain ⟨he, hr⟩ := h
          have hrec := ih (c' :: tl) (by simp at hlen ⊢; omega) p q hs
          have : (c :: c' :: tl) ++ b = c :: ((c' :: tl) ++ b) := by simp
          rw [this]
          have hcons : splitFirstBoundary (c :: ((c' :: tl) ++ b)) =
              match splitFirstBoundary ((c' :: tl) ++ b) with
              | some (p, q) => some (c :: p, q)
              | none => none := by
            match hsh : (c' :: tl) ++ b with
            | [] => simp at hsh
            | [d] =>
              have : c' = d ∧ tl = [] ∧ b = [] := by
                cases tl <;> cases b <;> simp_all
              obtain ⟨hd, htl, hbnil⟩ := this
              subst hd
              subst htl
              subst hbnil
              simp [splitFirstBoundary, hb]
            | d :: d' :: tl' =>
              have hd : c' = d := by
                have := congrArg (fun l => l.head?) hsh
                simpa using this
              subst hd
              simp only [splitFirstBoundary]
              rw [if_neg (by tauto)]
          rw [hcons, hrec]
          subst he
          subst hr
          rfl

theorem extractEvents_append (n : Nat) (a : List Char) (hlen : a.length ≤ n)
    (b : List Char) :
    extractEvents (a ++ b) =
      ((extractEvents a).1 ++ (extractEvents ((extractEvents a).2 ++ b)).1,
       (extractEvents ((extractEvents a).2 ++ b)).2) := by
  induction n generalizing a with
  | zero =>
    have hnil : a = [] := List.eq_nil_of_length_eq_zero (by omega)
    subst hnil
    simp [extractEvents, extractEventsAux]
  | succ n ih =>
    cases hs : splitFirstBoundary a with
    | none =>
      have ha : extractEvents a = ([], a) := by rw [extractEvents_eq, hs]
      rw [ha]
      simp
    | some pq =>
      obtain ⟨e, rest⟩ := pq
      have ha : extractEvents a =
          (e :: (extractEvents rest).1, (extractEvents rest).2) := by
        rw [extractEvents_eq, hs]
      have hab : splitFirstBoundary (a ++ b) = some (e, rest ++ b) :=
        splitFirstBoundary_append a.length a le_rfl b e rest hs
      have h2 : extractEvents (a ++ b) =
          (e :: (extractEvents (rest ++ b)).1, (extractEvents (rest ++ b)).2) := by
        rw [extractEvents_eq, hab]
      have hlenr : rest.length ≤ n := by
        have := splitFirstBoundary_length a.length a le_rfl e rest hs
        omega
      rw [h2, ih rest hlenr, ha]
      simp

theorem extractEvents_tail_none (n : Nat) (buf : List Char)
    (hlen : buf.length ≤ n) :
    splitFirstBoundary (extractEvents buf).2 = none := by
  induction n generalizing buf with
  | zero =>
    have hnil : buf = [] := List.eq_nil_of_length_eq_zero (by omega)
    subst hnil
    simp [extractEvents, extractEventsAux, splitFirstBoundary]
  | succ n ih =>
    cases hs : splitFirstBoundary buf with
    | none =>
      rw [extractEvents_eq, hs]
      exact hs
    | some pq =>
      obtain ⟨e, rest⟩ := pq
      rw [extractEvents_eq, hs]
      have hlenr : rest.length ≤ n := by
        have := splitFirstBoundary_length buf.length buf le_rfl e rest hs
        omega
      exact ih rest hlenr

theorem processChunks_eq {Ev : Type} (decode : List Char → Option Ev)
    (chunks : List (List Char)) :
    ∀ buffer, splitFirstBoundary buffer = none →
      processChunks decode buffer chunks =
        ((extractEvents (buffer ++ chunks.flatten)).1.filterMap
          (decodeEventPayload decode),
         (extractEvents (buffer ++ chunks.flatten)).2) := by
  induction chunks with
  | nil =>
    intro buffer hb
    have hext : extractEvents (buffer ++ List.flatten []) = ([], buffer) := by
      rw [List.flatten_nil, List.append_nil, extractEvents_eq, hb]
    rw [show processChunks decode buffer [] = ([], buffer) from rfl, hext]
    simp
  | cons chunk rest ih =>
    intro buffer hb
    simp only [processChunks]
    rw [ih (extractEvents (buffer ++ chunk)).2
      (extractEvents_tail_none _ _ le_rfl)]
    have hassoc : buffer ++ (chunk :: rest).flatten = (buffer ++ chunk) ++ rest.flatten := by
      rw [List.flatten_cons, ← List.append_assoc]
    rw [hassoc,
      extractEvents_append ((buffer ++ chunk).length) (buffer ++ chunk) le_rfl
        rest.flatten]
    simp [List.filterMap_append]

theorem foldl_send_eq (Ev Msg : Type) (encode : Ev → Msg) (events : List Ev) :
    ∀ init : List Msg,
      events.foldl (fun sent e => sent ++ [encode e]) init =
        init ++ events.map encode := by
  induction events with
  | nil => intro init; simp
  | cons e rest ih =>
    intro init
    rw [List.foldl_cons, ih (init ++ [encode e])]
    simp

/-- C7: the incremental SSE reader (append chunk to buffer, split off all
complete `"\n\n"`-terminated events, decode each `data:` payload, keep
the partial tail) is equivalent to splitting the whole upstream text at
once and decoding the complete events in arrival order — malformed
payloads (`decode` = none) are dropped without terminating the stream —
the retained tail never holds a complete event, and the WebSocket bridge
sends the yielded events in that same order. -/
theorem c7_sse_proxy_order {Ev Msg : Type} (decode : List Char → Option Ev)
    (encode : Ev → Msg) (chunks : List (List Char)) (events : List Ev) :
    processChunks decode [] chunks = streamSpec decode chunks.flatten ∧
    splitFirstBoundary (processChunks decode [] chunks).2 = none ∧
    forwardLoop encode events = events.map encode := by
  have h := processChunks_eq decode chunks [] rfl
  refine ⟨?_, ?_, foldl_send_eq Ev Msg encode events []⟩
  · rw [h]
    rw [streamSpec, List.nil_append]
  · rw [h]
    exact extractEvents_tail_none (chunks.flatten).length _ (by simp)

/-! ## Chat-path lemmas -/

theorem chat_tool_path (env : ChatEnv) (h1 : env.apiKeyConfigured = true)
    (hne : env.call1ToolUses ≠ []) :
    chat env =
      { answer := toolPathAnswer env
        data :=
          ⟨((getSnapshotResult (toolPathState env).toolResults).map
              (·.valuationMethod)).getD .market,
           (getSnapshotResult (toolPathState env).toolResults).bind (·.asOf),
           (getSnapshotResult (toolPathState env).toolResults).map
             (·.totalValue),
           (getSnapshotResult (toolPathState env).toolResults).map
             (·.allocationBySymbol),
           (getSnapshotResult (toolPathState env).toolResults).map
             (·.allocationByAssetClass)⟩
        toolTrace := (toolPathState env).toolTrace
        confidence := max 0 (toolPathBase env -
          (verifyAgentResponse (toolPathAnswer env)
            (toolPathState env).toolResults).confidenceAdjustment)
        warnings := (verifyAgentResponse (toolPathAnswer env)
          (toolPathState env).toolResults).warnings } := by
  unfold chat
  rw [if_neg (by rw [h1]; simp), if_neg (by simp [List.isEmpty_iff, hne])]

theorem chat_direct_path (env : ChatEnv) (h1 : env.apiKeyConfigured = true)
    (hemp : env.call1ToolUses = []) :
    chat env =
      { answer := extractText env.call1Text
        data := ⟨.market, none, none, none, none⟩
        toolTrace := []
        confidence := directBaseConfidence
        warnings := (verifyAgentResponse (extractText env.call1Text)
          []).warnings } := by
  unfold chat
  rw [if_neg (by rw [h1]; simp), if_pos (by simp [hemp])]

/-! ## C1 — tool loop trace discipline -/

theorem execStep_toolTrace (reg : RegistryM) (st : ToolLoopState)
    (b : ToolUseBlock) :
    (execStep reg st b).toolTrace = st.toolTrace ++ [traceRow reg b] := by
  unfold execStep traceRow
  cases h : getExecutor reg b.name with
  | none => simp
  | some run => cases h2 : run b.input <;> simp [h2]

theorem execStep_invocations (reg : RegistryM) (st : ToolLoopState)
    (b : ToolUseBlock) :
    (execStep reg st b).invocations = st.invocations ++
      (if (getExecutor reg b.name).isSome then [b.name] else []) := by
  unfold execStep
  cases h : getExecutor reg b.name with
  | none => simp [h]
  | some run => cases h2 : run b.input <;> simp [h, h2]

theorem execToolCalls_go_toolTrace (reg : RegistryM)
    (blocks : List ToolUseBlock) :
    ∀ st : ToolLoopState,
      (blocks.foldl (execStep reg) st).toolTrace =
        st.toolTrace ++ blocks.map (traceRow reg) := by
  induction blocks with
  | nil => intro st; simp
  | cons b rest ih =>
    intro st
    rw [List.foldl_cons, ih (execStep reg st b), execStep_toolTrace]
    simp

theorem execToolCalls_go_invocations (reg : RegistryM)
    (blocks : List ToolUseBlock) :
    ∀ st : ToolLoopState,
      (blocks.foldl (execStep reg) st).invocations =
        st.invocations ++
          (blocks.filter (fun b => (getExecutor reg b.name).isSome)).map
            (·.name) := by
  induction blocks with
  | nil => intro st; simp
  | cons b rest ih =>
    intro st
    rw [List.foldl_cons, ih (execStep reg st b), execStep_invocations]
    by_cases h : (getExecutor reg b.name).isSome <;> simp [h]

/-- C1: the tool loop records exactly one trace row per requested tool,
in the LLM-requested order; an unknown or disabled tool yields a failed
row with the "Unknown or disabled tool" error and its executor is never
invoked; a throwing executor yields a failed row carrying the thrown
message and the loop continues — the batch is never aborted — and the
turn still returns a well-formed response whose trace is exactly that
row list. -/
theorem c1_tool_trace_rows (reg : RegistryM) (blocks : List ToolUseBlock) :
    (execToolCalls reg blocks).toolTrace = blocks.map (traceRow reg) ∧
    (execToolCalls reg blocks).toolTrace.length = blocks.length ∧
    (∀ b : ToolUseBlock, getExecutor reg b.name = none →
      traceRow reg b =
        ⟨b.name, false, some ("Unknown or disabled tool: " ++ b.name)⟩) ∧
    (∀ b : ToolUseBlock, ∀ run, getExecutor reg b.name = some run →
      ∀ msg, run b.input = ExecOutcome.throws msg →
        traceRow reg b = ⟨b.name, false, some msg⟩) ∧
    (execToolCalls reg blocks).invocations =
      (blocks.filter (fun b => (getExecutor reg b.name).isSome)).map
        (·.name) ∧
    (∀ env : ChatEnv, env.apiKeyConfigured = true → env.reg = reg →
      env.call1ToolUses = blocks → blocks ≠ [] →
      (chat env).toolTrace = blocks.map (traceRow reg) ∧
      (chat env).answer = extractText env.call2Text) := by
  have htrace : (execToolCalls reg blocks).toolTrace =
      blocks.map (traceRow reg) := by
    rw [execToolCalls, execToolCalls_go_toolTrace]
    simp [initLoopState]
  refine ⟨htrace, by rw [htrace, List.length_map], ?_, ?_, ?_, ?_⟩
  · intro b hb
    unfold traceRow
    rw [hb]
  · intro b run hrun msg hmsg
    unfold traceRow
    rw [hrun]
    simp [hmsg]
  · rw [execToolCalls, execToolCalls_go_invocations]
    simp [initLoopState]
  · intro env h1 hreg huses hne
    have hc := chat_tool_path env h1 (by rw [huses]; exact hne)
    rw [hc]
    constructor
    · show (toolPathState env).toolTrace = blocks.map (traceRow reg)
      rw [toolPathState, huses, hreg]
      exact htrace
    · rfl

/-- Witness for C1 on a concrete turn: a throwing executor, an unknown
tool, and a disabled tool each produce their failed trace row, no
executor runs for the unknown/disabled tools, and a full chat turn over
these requests completes with exactly those three rows. -/
theorem c1_tool_trace_rows_witness :
    traceRow c1Reg ⟨"i2", "nope", ""⟩ =
      ⟨"nope", false, some "Unknown or disabled tool: nope"⟩ ∧
    traceRow c1Reg ⟨"i3", "t2", ""⟩ =
      ⟨"t2", false, some "Unknown or disabled tool: t2"⟩ ∧
    traceRow c1Reg ⟨"i1", "t1", ""⟩ = ⟨"t1", false, some "boom"⟩ ∧
    (execToolCalls c1Reg c1Blocks).invocations = ["t1"] ∧
    (chat c1Env).toolTrace = c1Blocks.map (traceRow c1Reg) ∧
    (chat c1Env).answer = extractText ["Answer."] := by
  have h := c1_tool_trace_rows c1Reg c1Blocks
  have hchat := h.2.2.2.2.2 c1Env rfl rfl rfl (by simp [c1Blocks])
  refine ⟨h.2.2.1 ⟨"i2", "nope", ""⟩ rfl, h.2.2.1 ⟨"i3", "t2", ""⟩ rfl,
    h.2.2.2.1 ⟨"i1", "t1", ""⟩ _ rfl "boom" rfl, ?_, hchat.1, hchat.2⟩
  rw [h.2.2.2.2.1]
  rfl

/-! ## C4 — advice-boundary warnings and confidence -/

theorem checkAllocationSum_adjustment_nonneg (a : List AllocationRow) :
    0 ≤ (checkAllocationSum a).confidenceAdjustment := by
  unfold checkAllocationSum
  split
  · norm_num
  · dsimp only
    split <;> norm_num

theorem checkValuationLabel_adjustment_nonneg (answer : String) :
    0 ≤ (checkValuationLabel answer).confidenceAdjustment := by
  unfold checkValuationLabel
  split_ifs <;> norm_num

theorem verify_advice_matched (answer : String)
    (tr : MapList ToolResultVal) (h : adviceBoundaryMatches answer = true) :
    adviceWarningText ∈ (verifyAgentResponse answer tr).warnings ∧
    0.2 ≤ (verifyAgentResponse answer tr).confidenceAdjustment := by
  have hadv : checkAdviceBoundary answer =
      { warnings := [adviceWarningText], confidenceAdjustment := 0.2 } := by
    rw [checkAdviceBoundary, if_pos h]
  constructor
  · show adviceWarningText ∈ (checkAdviceBoundary answer).warnings ++ _ ++ _
    rw [hadv]
    simp
  · show 0.2 ≤ (checkAdviceBoundary answer).confidenceAdjustment + _ + _
    rw [hadv]
    have h2 : 0 ≤ (match getSnapshotResult tr with
        | some s => checkAllocationSum s.allocationBySymbol
        | none =>
          ({ warnings := [], confidenceAdjustment := 0 } :
            VerificationResult)).confidenceAdjustment := by
      split
      · exact checkAllocationSum_adjustment_nonneg _
      · norm_num
    have h3 : 0 ≤ (match getSnapshotResult tr with
        | some s =>
          if s.isPriceDataMissing then checkValuationLabel answer
          else { warnings := [], confidenceAdjustment := 0 }
        | none =>
          ({ warnings := [], confidenceAdjustment := 0 } :
            VerificationResult)).confidenceAdjustment := by
      split
      · split_ifs
        · exact checkValuationLabel_adjustment_nonneg _
        · norm_num
      · norm_num
    linarith

theorem computeConfidence_pos (hasErrors isPriceDataMissing : Bool)
    (toolsSucceeded toolsFailed : Nat) (hasHoldings : Bool) :
    0 < computeConfidence hasErrors isPriceDataMissing toolsSucceeded
      toolsFailed hasHoldings := by
  unfold computeConfidence
  split_ifs <;> norm_num

/-- C4 (amended): on the tool-executing path an advisory answer always
yields an "advice" warning and a final confidence
`max 0 (base − penalties)` strictly below the unpenalized baseline; on
the direct path (no tools requested) the warning is still produced but
the returned confidence is the unpenalized baseline itself — the penalty
is not applied there (see the counterexample). -/
theorem c4_advice_boundary_confidence :
    (∀ env : ChatEnv, env.apiKeyConfigured = true →
      env.call1ToolUses ≠ [] →
      adviceBoundaryMatches (toolPathAnswer env) = true →
      (∃ w ∈ (chat env).warnings, "advice".toList <:+: w.toList) ∧
      (chat env).confidence = max 0 (toolPathBase env -
        (verifyAgentResponse (toolPathAnswer env)
          (toolPathState env).toolResults).confidenceAdjustment) ∧
      (chat env).confidence < toolPathBase env) ∧
    (∀ env : ChatEnv, env.apiKeyConfigured = true →
      env.call1ToolUses = [] →
      adviceBoundaryMatches (extractText env.call1Text) = true →
      (∃ w ∈ (chat env).warnings, "advice".toList <:+: w.toList) ∧
      (chat env).confidence = directBaseConfidence) := by
  constructor
  · intro env h1 hne hmatch
    have hc := chat_tool_path env h1 hne
    have hv := verify_advice_matched (toolPathAnswer env)
      (toolPathState env).toolResults hmatch
    refine ⟨?_, by rw [hc], ?_⟩
    · rw [hc]
      exact ⟨adviceWarningText, hv.1, by decide⟩
    · rw [hc]
      have hbase : 0 < toolPathBase env := by
        rw [toolPathBase]
        exact computeConfidence_pos _ _ _ _ _
      exact max_lt_iff.mpr ⟨hbase, by linarith [hv.2]⟩
  · intro env h1 hemp hmatch
    have hc := chat_direct_path env h1 hemp
    have hv := verify_advice_matched (extractText env.call1Text) [] hmatch
    exact ⟨by rw [hc]; exact ⟨adviceWarningText, hv.1, by decide⟩, by rw [hc]⟩

/-- Witness for C4 (amended) on a concrete tool-path turn with an
advisory answer: an "advice" warning is present and the confidence is
strictly below the baseline. -/
theorem c4_advice_boundary_confidence_witness :
    (∃ w ∈ (chat c4ToolEnv).warnings, "advice".toList <:+: w.toList) ∧
    (chat c4ToolEnv).confidence < toolPathBase c4ToolEnv := by
  have h := (c4_advice_boundary_confidence).1 c4ToolEnv rfl
    (by simp [c4ToolEnv]) (by decide)
  exact ⟨h.1, h.2.2⟩

/-- Counterexample to C4 as stated: on the direct path the advisory
answer still produces the warning, but the returned confidence equals
the unpenalized baseline (`computeConfidence` with no tools, 1.0) — it
is not strictly less. -/
theorem c4_counterexample :
    adviceBoundaryMatches (extractText c4Env.call1Text) = true ∧
    (∃ w ∈ (chat c4Env).warnings, "advice".toList <:+: w.toList) ∧
    (chat c4Env).confidence = directBaseConfidence ∧
    ¬(chat c4Env).confidence < directBaseConfidence := by
  have hmatch : adviceBoundaryMatches (extractText c4Env.call1Text) = true := by
    decide
  have hc := chat_direct_path c4Env rfl rfl
  have hv := verify_advice_matched (extractText c4Env.call1Text) [] hmatch
  refine ⟨hmatch, ?_, by rw [hc], ?_⟩
  · rw [hc]
    exact ⟨adviceWarningText, hv.1, by decide⟩
  · rw [hc]
    exact lt_irrefl _

/-! ## C8 — WebSocket upgrade gating -/

/-- C8 (amended): the gateway destroys the socket for any request whose
URL does not start with the agent WebSocket path (a prefix match, not an
exact one — see the counterexample); on a prefix-matching URL a missing,
empty or unverifiable bearer token yields the 401/destroy outcome and no
WebSocket; and an upgrade happens only with a prefix-matching URL and a
nonempty token whose verification yields a nonempty user id. -/
theorem c8_upgrade_gate (verify : String → Option String) (url : String) :
    (¬strStartsWith url AGENT_WS_PATH = true →
      handleUpgrade verify url = UpgradeDecision.destroyed) ∧
    (strStartsWith url AGENT_WS_PATH = true → getTokenParam url = none →
      handleUpgrade verify url = UpgradeDecision.unauthorized) ∧
    (strStartsWith url AGENT_WS_PATH = true → ∀ t, getTokenParam url = some t →
      (t = "" ∨ verify (stripBearer t) = none) →
      handleUpgrade verify url = UpgradeDecision.unauthorized) ∧
    (∀ u bt, handleUpgrade verify url = UpgradeDecision.upgraded u bt →
      strStartsWith url AGENT_WS_PATH = true ∧
      ∃ t, getTokenParam url = some t ∧ t ≠ "" ∧
        verify (stripBearer t) = some u ∧ u ≠ "" ∧
        bt = (if strStartsWith t "Bearer " then t else "Bearer " ++ t)) := by
  refine ⟨?_, ?_, ?_, ?_⟩
  · intro h
    unfold handleUpgrade
    rw [if_pos h]
  · intro h htok
    unfold handleUpgrade
    rw [if_neg (by simp [h])]
    simp only [htok]
  · intro h t htok hcase
    unfold handleUpgrade
    rw [if_neg (by simp [h])]
    simp only [htok]
    rcases hcase with h0 | hv
    · simp [h0]
    · by_cases ht : t = ""
      · simp [ht]
      · simp [ht, hv]
  · intro u bt h
    unfold handleUpgrade at h
    by_cases hs : strStartsWith url AGENT_WS_PATH = true
    · rw [if_neg (by simp [hs])] at h
      refine ⟨hs, ?_⟩
      cases htok : getTokenParam url with
      | none => simp only [htok] at h; simp at h
      | some t =>
        simp only [htok] at h
        by_cases ht : t = ""
        · rw [if_pos ht] at h
          simp at h
        · rw [if_neg ht] at h
          cases hv : verify (stripBearer t) with
          | none => simp only [hv] at h; simp at h
          | some uid =>
            simp only [hv] at h
            by_cases hu : uid = ""
            · rw [if_pos hu] at h
              simp at h
            · rw [if_neg hu] at h
              injection h with h1 h2
              subst h1
              exact ⟨t, rfl, ht, hv, hu, h2.symm⟩
    · rw [if_pos (by simpa using hs)] at h
      simp at h

/-- Witness for C8 (amended) at concrete requests: a non-matching path is
destroyed; a matching path without a token gets 401; a matching path
whose token fails verification gets 401. -/
theorem c8_upgrade_gate_witness :
    handleUpgrade (fun _ => some "user-1") "/nope" =
      UpgradeDecision.destroyed ∧
    handleUpgrade (fun _ => some "user-1") "/api/v1/agent/ws" =
      UpgradeDecision.unauthorized ∧
    handleUpgrade (fun _ => none) "/api/v1/agent/ws?token=abc" =
      UpgradeDecision.unauthorized := by
  refine ⟨(c8_upgrade_gate (fun _ => some "user-1") "/nope").1 (by decide),
    (c8_upgrade_gate (fun _ => some "user-1") "/api/v1/agent/ws").2.1
      (by decide) (by decide),
    (c8_upgrade_gate (fun _ => none) "/api/v1/agent/ws?token=abc").2.2.1
      (by decide) "abc" (by decide) (Or.inr rfl)⟩

/-- Counterexample to C8's "exact path match": a URL whose path component
extends the agent WebSocket path still passes the `startsWith` gate and,
with a valid token, is upgraded — no exact-match check exists. -/
theorem c8_counterexample :
    handleUpgrade (fun _ => some "user-1") "/api/v1/agent/ws/extra?token=abc" =
      UpgradeDecision.upgraded "user-1" "Bearer abc" ∧
    urlPath "/api/v1/agent/ws/extra?token=abc" ≠ AGENT_WS_PATH ∧
    ("/api/v1/agent/ws/extra?token=abc" : String) ≠ AGENT_WS_PATH := by
  refine ⟨?_, by decide, by decide⟩
  rfl

end Ghostfolio

